import Mathlib

/-!
The `Tomb` lifecycle state machine (package `tomb`, file `tomb.go`).

A shallow embedding of `tomb.go`.  Every method of `*Tomb` runs its whole body
under `t.mut`, so a method call is one atomic transition of the state below;
the mutex itself is therefore not a field of the model.

What the model contains besides the four data fields of `Tomb`:

* `Heap`: the channels made by `ensureInitialized` and which of them have been
  closed.  `close` follows the Go semantics: closing a nil channel or a channel
  that is already closed panics.  Only the Tomb closes its channels; nothing is
  ever sent on them.
* `goroutines`: one entry per goroutine started by the `go` statement of
  `Tomb.Go` (tomb.go lines 37-43), in the order of their creation.
* `numAlive` is a Go `int`.  It is modelled as an unbounded `Int`: it grows by
  one per successful call of `Go`, and 2^63 such calls are out of reach.  The
  statements about the increment of line 36 itself assume `numAlive < maxInt`,
  the range in which `t.numAlive++` does not wrap.
* A goroutine started by `Go` has returned when its function, lines 37-43, has
  run to its end: `fn()` returned and the bookkeeping of lines 39-42 was done.
  That bookkeeping is one atomic transition (`goroutineEnds`).
-/

namespace tomb

/-! ## Data model -/

/-- The two error values declared at the top of `tomb.go`. -/
inductive Error where
  | WaitTimeoutError
  | CannotStartDeadError
  deriving DecidableEq, Repr

/-- A value of type `chan int`: `none` is the nil channel, `some i` is the
channel produced by the `i`-th call of `make(chan int)`. -/
abbrev Chan := Option Nat

/-- A value of type `func()`: `none` is the nil function, `some k` is a
function value (the number only tells function values apart). -/
abbrev Func := Option Nat

/-- The run-time panics that the code of `tomb.go` can raise. -/
inductive Panic where
  | closeOfNilChannel
  | closeOfClosedChannel
  | nilFuncCall
  | taskPanic
  deriving DecidableEq, Repr

/-- Why a transition yields no next state: the process panicked, or the event
cannot happen in this state (there is no such running goroutine). -/
inductive Stop where
  | panic (p : Panic)
  | notEnabled
  deriving DecidableEq, Repr

/-- The channels made so far (`next` of them, numbered from 0) and the
channels closed so far, the most recently closed first. -/
structure Heap where
  next : Nat
  closed : List Nat
  deriving DecidableEq, Repr

/-- The data fields of `type Tomb struct`, without the mutex. -/
structure Tomb where
  numAlive : Int
  dyingChan : Chan
  dying : Bool
  deadChan : Chan
  deriving DecidableEq, Repr

/-- Where a goroutine started by `Go` stands.  `running`: created, its wrapper
has not yet taken the lock of line 39 (the body `fn` is running, or has just
returned).  `finished`: `fn()` returned and the wrapper ran lines 39-42.
`exited`: the goroutine ended inside `fn` without returning from it
(`runtime.Goexit`), so lines 39-42 were never reached. -/
inductive Status where
  | running
  | finished
  | exited
  deriving DecidableEq, Repr

/-- A goroutine started by the `go` statement of `Tomb.Go`. -/
structure Goroutine where
  fn : Func
  status : Status
  deriving DecidableEq, Repr

/-- The whole state: channel heap, the Tomb, and the goroutines started by it. -/
structure World where
  heap : Heap
  t : Tomb
  goroutines : List Goroutine
  deriving DecidableEq, Repr

/-- The state of `var t Tomb`: the zero value, nothing made, nothing started. -/
def zeroValue : World :=
  { heap := { next := 0, closed := [] }
    t := { numAlive := 0, dyingChan := none, dying := false, deadChan := none }
    goroutines := [] }

/-! ## Channel primitives of Go -/

/-- Go `make(chan int)`: a fresh, open channel. -/
def makeChan (w : World) : World × Chan :=
  ({ w with heap := { w.heap with next := w.heap.next + 1 } }, some w.heap.next)

/-- Whether a channel is closed, i.e. whether a receive `<-c` can proceed
(nothing is ever sent on these channels).  A nil channel is never ready. -/
def isClosed (w : World) (c : Chan) : Bool :=
  match c with
  | none => false
  | some i => decide (i ∈ w.heap.closed)

/-- Go `close(c)`: panics on a nil channel and on a closed channel. -/
def closeChan (w : World) (c : Chan) : Except Stop World :=
  match c with
  | none => .error (.panic .closeOfNilChannel)
  | some i =>
    if i ∈ w.heap.closed then .error (.panic .closeOfClosedChannel)
    else .ok { w with heap := { w.heap with closed := i :: w.heap.closed } }

/-! ## The methods of `*Tomb` -/

/-- Source: `func (t *Tomb) ensureInitialized()`, tomb.go lines 117-122. -/
def ensureInitialized (w : World) : World :=
  if w.t.dyingChan = none then
    let (w1, c1) := makeChan w
    let w2 : World := { w1 with t := { w1.t with dyingChan := c1 } }
    let (w3, c2) := makeChan w2
    { w3 with t := { w3.t with deadChan := c2 } }
  else w

/-- Source: `func (t *Tomb) tryCloseDead()`, tomb.go lines 124-128. -/
def tryCloseDead (w : World) : Except Stop World :=
  if w.t.dying && decide (w.t.numAlive = 0) then closeChan w w.t.deadChan
  else .ok w

/-- Source: `func (t *Tomb) Go(fn func()) error`, tomb.go lines 26-46.  The
result is the new state and the returned error (`none` is Go `nil`).  The `go`
statement appends the new goroutine; its body is `goroutineEnds` below. -/
def Go (fn : Func) (w : World) : World × Option Error :=
  if w.t.dying then (w, some .CannotStartDeadError)
  else
    let w1 := ensureInitialized w
    let w2 : World := { w1 with t := { w1.t with numAlive := w1.t.numAlive + 1 } }
    ({ w2 with goroutines := w2.goroutines ++ [{ fn := fn, status := .running }] }, none)

/-- How the call `fn()` of line 38 ends: it returns, the goroutine leaves through
`runtime.Goexit`, or it panics without recovering. -/
inductive Ending where
  | returns
  | goexit
  | panics
  deriving DecidableEq, Repr

/-- Source: the goroutine of `Tomb.Go`, tomb.go lines 37-43, for the goroutine
number `i`.  How the call `fn()` of line 38 ends is the parameter `e`; calling a
nil `fn` panics, and an unrecovered panic in a goroutine ends the process.
Lines 39-42 (decrement and `tryCloseDead`) run under the lock, only after
`fn()` has returned; they are not deferred, so they are skipped when `fn()`
does not return. -/
def goroutineEnds (i : Nat) (e : Ending) (w : World) : Except Stop World :=
  match w.goroutines[i]? with
  | none => .error .notEnabled
  | some g =>
    if g.status ≠ .running then .error .notEnabled
    else
      match g.fn with
      | none => .error (.panic .nilFuncCall)
      | some _ =>
        match e with
        | .panics => .error (.panic .taskPanic)
        | .goexit =>
          .ok { w with goroutines := w.goroutines.set i { g with status := .exited } }
        | .returns =>
          let w1 : World := { w with t := { w.t with numAlive := w.t.numAlive - 1 } }
          match tryCloseDead w1 with
          | .error s => .error s
          | .ok w2 =>
            .ok { w2 with goroutines := w2.goroutines.set i { g with status := .finished } }

/-- Source: `func (t *Tomb) Kill()`, tomb.go lines 51-64. -/
def Kill (w : World) : Except Stop World :=
  if w.t.dying then .ok w
  else
    let w1 := ensureInitialized w
    let w2 : World := { w1 with t := { w1.t with dying := true } }
    match closeChan w2 w2.t.dyingChan with
    | .error s => .error s
    | .ok w3 => tryCloseDead w3

/-- Source: `func (t *Tomb) Dying() chan int`, tomb.go lines 69-74. -/
def Dying (w : World) : World × Chan :=
  let w1 := ensureInitialized w
  (w1, w1.t.dyingChan)

/-- Source: `func (t *Tomb) Dead() chan int`, tomb.go lines 79-84. -/
def Dead (w : World) : World × Chan :=
  let w1 := ensureInitialized w
  (w1, w1.t.deadChan)

/-- Source: `func (t *Tomb) Alive() bool`, tomb.go lines 91-95. -/
def Alive (w : World) : Bool :=
  !w.t.dying

/-- Source: `func (t *Tomb) IsDead() bool`, tomb.go lines 98-102. -/
def IsDead (w : World) : Bool :=
  w.t.dying && decide (w.t.numAlive = 0)

/-- What a `Wait` call does at the moment its `select` is polled: it returns an
error value (`none` is Go `nil`), or no case can proceed and it stays blocked. -/
inductive WaitResult where
  | returned (err : Option Error)
  | blocked
  deriving DecidableEq, Repr

/-- Source: `func (t *Tomb) Wait(timeout time.Duration) error`, tomb.go lines
106-115.  Real time is replaced by `timerFired`: whether `timer.C` can be
received from when the `select` is polled.  `t.Dead()` is evaluated on entry of
the `select`.  When both cases can proceed Go chooses one of them at random:
`pickTimer` is that choice. -/
def Wait (timerFired pickTimer : Bool) (w : World) : World × WaitResult :=
  let (w1, c) := Dead w
  let deadReady := isClosed w1 c
  if timerFired && deadReady then
    (w1, .returned (if pickTimer then some .WaitTimeoutError else none))
  else if timerFired then (w1, .returned (some .WaitTimeoutError))
  else if deadReady then (w1, .returned none)
  else (w1, .blocked)

/-! ## Runs of the state machine -/

/-- The events of a run: the calls of the public methods by any goroutine, and
the end of a goroutine started by `Go`. -/
inductive Op where
  | go (fn : Func)
  | kill
  | dying
  | dead
  | alive
  | isDead
  | wait (timerFired pickTimer : Bool)
  | ends (i : Nat) (e : Ending)
  deriving DecidableEq, Repr

/-- One event applied to a state. -/
def step (op : Op) (w : World) : Except Stop World :=
  match op with
  | .go fn => .ok (Go fn w).1
  | .kill => Kill w
  | .dying => .ok (Dying w).1
  | .dead => .ok (Dead w).1
  | .alive => .ok w
  | .isDead => .ok w
  | .wait f p => .ok (Wait f p w).1
  | .ends i e => goroutineEnds i e w

/-- A sequence of events applied to a state, stopping at the first event that
panics or cannot happen. -/
def run : List Op → World → Except Stop World
  | [], w => .ok w
  | op :: ops, w =>
    match step op w with
    | .error s => .error s
    | .ok w1 => run ops w1

/-- A state is reachable when some run from the zero-value Tomb ends in it. -/
def Reachable (w : World) : Prop :=
  ∃ ops : List Op, run ops zeroValue = .ok w

/-- The goroutines started by `Go` whose lines 39-42 have not run. -/
def pending (gs : List Goroutine) : Nat :=
  gs.countP (fun g => decide (g.status ≠ .finished))

/-- The closed channels of an initialised reachable Tomb: channel 0 (Dying) once
`dying` is set, and channel 1 (Dead) as well once `numAlive` is 0. -/
def expectedClosed (t : Tomb) : List Nat :=
  if t.dying then (if t.numAlive = 0 then [1, 0] else [0]) else []

/-- The invariant of the reachable states: `numAlive` counts the pending
goroutines, and either nothing has happened yet, or the two channels are
channel 0 and channel 1 and exactly the expected ones are closed. -/
structure Inv (w : World) : Prop where
  count : w.t.numAlive = (pending w.goroutines : Int)
  shape : w = zeroValue ∨
    (w.heap.next = 2 ∧ w.t.dyingChan = some 0 ∧ w.t.deadChan = some 1 ∧
      w.heap.closed = expectedClosed w.t)

/-! ## Concrete states used as instances -/

/-- The state after `Kill` on the zero-value Tomb: both channels closed. -/
def killedEmpty : World :=
  { heap := { next := 2, closed := [1, 0] }
    t := { numAlive := 0, dyingChan := some 0, dying := true, deadChan := some 1 }
    goroutines := [] }

/-- The state after `Go(f)` then `Kill`: Dying, one goroutine still running. -/
def dyingWithOne : World :=
  { heap := { next := 2, closed := [0] }
    t := { numAlive := 1, dyingChan := some 0, dying := true, deadChan := some 1 }
    goroutines := [{ fn := some 0, status := .running }] }

/-- The state after `Go(f)`, `Kill` and the return of `f`: Dead. -/
def deadWithOne : World :=
  { heap := { next := 2, closed := [1, 0] }
    t := { numAlive := 0, dyingChan := some 0, dying := true, deadChan := some 1 }
    goroutines := [{ fn := some 0, status := .finished }] }

/-- The state after `Go(f)` on the zero-value Tomb: Alive, one goroutine. -/
def aliveWithOne : World :=
  { heap := { next := 2, closed := [] }
    t := { numAlive := 1, dyingChan := some 0, dying := false, deadChan := some 1 }
    goroutines := [{ fn := some 0, status := .running }] }

/-- The events of `TestTomb_HappyFlow`, the second goroutine returning first. -/
def happyFlow : List Op :=
  [.go (some 0), .go (some 1), .kill, .ends 1 .returns, .ends 0 .returns]

/-- The final state of `happyFlow`. -/
def happyFlowEnd : World :=
  { heap := { next := 2, closed := [1, 0] }
    t := { numAlive := 0, dyingChan := some 0, dying := true, deadChan := some 1 }
    goroutines := [{ fn := some 0, status := .finished }, { fn := some 1, status := .finished }] }

/-- The state after the first `Dying()` or `Dead()` on the zero-value Tomb: the
two channels made, both open. -/
def initialised : World :=
  { heap := { next := 2, closed := [] }
    t := { numAlive := 0, dyingChan := some 0, dying := false, deadChan := some 1 }
    goroutines := [] }

/-- The largest value of a Go `int` (64 bits): at this value `t.numAlive++`
wraps around, below it the increment is the mathematical one. -/
def maxInt : Int := 9223372036854775807

/-- The state after `Go(nil)` on the zero-value Tomb. -/
def nilStarted : World :=
  { heap := { next := 2, closed := [] }
    t := { numAlive := 1, dyingChan := some 0, dying := false, deadChan := some 1 }
    goroutines := [{ fn := none, status := .running }] }

/-- The state after `Go(f)`, `Kill`, and `f` leaving through `runtime.Goexit`. -/
def goexitOne : World :=
  { heap := { next := 2, closed := [0] }
    t := { numAlive := 1, dyingChan := some 0, dying := true, deadChan := some 1 }
    goroutines := [{ fn := some 0, status := .exited }] }

/-! ## The invariant and its preservation -/

theorem pending_append_running (gs : List Goroutine) (fn : Func) :
    pending (gs ++ [{ fn := fn, status := .running }]) = pending gs + 1 := by
  simp [pending, List.countP_append]

theorem pending_set_finished (gs : List Goroutine) (i : Nat) (g : Goroutine)
    (hg : gs[i]? = some g) (hr : g.status = .running) :
    pending (gs.set i { g with status := .finished }) + 1 = pending gs := by
  induction gs generalizing i with
  | nil => simp at hg
  | cons a as ih =>
    cases i with
    | zero =>
      simp at hg
      subst hg
      simp [pending, List.countP_cons, hr]
    | succ j =>
      simp at hg
      have := ih j hg
      simp only [pending, List.set_cons_succ, List.countP_cons] at this ⊢
      omega

theorem pending_set_exited (gs : List Goroutine) (i : Nat) (g : Goroutine)
    (hg : gs[i]? = some g) (hr : g.status = .running) :
    pending (gs.set i { g with status := .exited }) = pending gs := by
  induction gs generalizing i with
  | nil => simp at hg
  | cons a as ih =>
    cases i with
    | zero =>
      simp at hg
      subst hg
      simp [pending, List.countP_cons, hr]
    | succ j =>
      simp at hg
      have := ih j hg
      simp only [pending, List.set_cons_succ, List.countP_cons] at this ⊢
      omega

theorem inv_zeroValue : Inv zeroValue :=
  ⟨by simp [zeroValue, pending], Or.inl rfl⟩

theorem inv_ensureInitialized (w : World) (h : Inv w) : Inv (ensureInitialized w) := by
  obtain ⟨hc, hs⟩ := h
  rcases hs with rfl | ⟨h1, h2, h3, h4⟩
  · exact ⟨by simp [ensureInitialized, makeChan, zeroValue, pending],
      Or.inr (by simp [ensureInitialized, makeChan, zeroValue, expectedClosed])⟩
  · have : ensureInitialized w = w := by simp [ensureInitialized, h2]
    rw [this]
    exact ⟨hc, Or.inr ⟨h1, h2, h3, h4⟩⟩

theorem ensureInitialized_shape (w : World) (h : Inv w) :
    (ensureInitialized w).heap.next = 2 ∧ (ensureInitialized w).t.dyingChan = some 0 ∧
    (ensureInitialized w).t.deadChan = some 1 ∧
    (ensureInitialized w).heap.closed = expectedClosed w.t ∧
    (ensureInitialized w).t.numAlive = w.t.numAlive ∧
    (ensureInitialized w).t.dying = w.t.dying ∧
    (ensureInitialized w).goroutines = w.goroutines := by
  obtain ⟨hc, hs⟩ := h
  rcases hs with rfl | ⟨h1, h2, h3, h4⟩
  · simp [ensureInitialized, makeChan, zeroValue, expectedClosed]
  · have : ensureInitialized w = w := by simp [ensureInitialized, h2]
    rw [this]
    exact ⟨h1, h2, h3, h4, rfl, rfl, rfl⟩

theorem Kill_of_dying (w : World) (hd : w.t.dying = true) : Kill w = .ok w := by
  simp [Kill, hd]

theorem Kill_eq (w : World) (h : Inv w) (hd : w.t.dying = false) :
    Kill w = .ok
      { heap := { next := 2, closed := if w.t.numAlive = 0 then [1, 0] else [0] }
        t := { numAlive := w.t.numAlive, dyingChan := some 0, dying := true, deadChan := some 1 }
        goroutines := w.goroutines } := by
  obtain ⟨hc, hs⟩ := h
  rcases hs with rfl | ⟨h1, h2, h3, h4⟩
  · rfl
  · obtain ⟨⟨nx, cl⟩, ⟨n, dc, d, ec⟩, gs⟩ := w
    simp only at h1 h2 h3 h4 hd hc
    subst h1 h2 h3 hd
    simp only [expectedClosed] at h4
    simp at h4
    subst h4
    by_cases hn : n = 0
    · simp [Kill, ensureInitialized, closeChan, tryCloseDead, hn]
    · simp [Kill, ensureInitialized, closeChan, tryCloseDead, hn]

theorem inv_Kill (w w1 : World) (h : Inv w) (hk : Kill w = .ok w1) : Inv w1 := by
  cases hd : w.t.dying with
  | true =>
    rw [Kill_of_dying w hd] at hk
    cases hk
    exact h
  | false =>
    rw [Kill_eq w h hd] at hk
    cases hk
    exact ⟨h.count, Or.inr ⟨rfl, rfl, rfl, by simp [expectedClosed]⟩⟩

theorem inv_Go (fn : Func) (w : World) (h : Inv w) : Inv (Go fn w).1 := by
  cases hd : w.t.dying with
  | true => simpa [Go, hd] using h
  | false =>
    obtain ⟨e1, e2, e3, e4, e5, e6, e7⟩ := ensureInitialized_shape w h
    simp only [Go, hd]
    refine ⟨?_, Or.inr ⟨e1, e2, e3, ?_⟩⟩
    · simp [pending_append_running, e5, e7, h.count]
    · simp [expectedClosed, e4, e6, hd]

theorem goroutineEnds_returns_eq (w : World) (h : Inv w) (i : Nat) (g : Goroutine) (k : Nat)
    (hg : w.goroutines[i]? = some g) (hr : g.status = .running) (hf : g.fn = some k) :
    goroutineEnds i .returns w = .ok
      { heap := { next := 2, closed := if w.t.dying then (if w.t.numAlive = 1 then [1, 0] else [0]) else [] }
        t := { numAlive := w.t.numAlive - 1, dyingChan := some 0, dying := w.t.dying, deadChan := some 1 }
        goroutines := w.goroutines.set i { g with status := .finished } } := by
  obtain ⟨hc, hs⟩ := h
  have hp := pending_set_finished w.goroutines i g hg hr
  rcases hs with rfl | ⟨h1, h2, h3, h4⟩
  · simp [zeroValue] at hg
  · obtain ⟨⟨nx, cl⟩, ⟨n, dc, d, ec⟩, gs⟩ := w
    simp only at h1 h2 h3 h4 hc hg hp
    subst h1 h2 h3
    have hn : n ≠ 0 := by omega
    simp only [expectedClosed, hn] at h4
    simp at h4
    subst h4
    cases d with
    | false => simp [goroutineEnds, hg, hr, hf, tryCloseDead]
    | true =>
      by_cases h1 : n = 1
      · simp [goroutineEnds, hg, hr, hf, tryCloseDead, closeChan, h1]
      · have : ¬ (n - 1 = 0) := by omega
        simp [goroutineEnds, hg, hr, hf, tryCloseDead, closeChan, h1, this]

theorem goroutineEnds_ok (w w1 : World) (i : Nat) (e : Ending)
    (hk : goroutineEnds i e w = .ok w1) :
    ∃ g k, w.goroutines[i]? = some g ∧ g.status = .running ∧ g.fn = some k ∧ e ≠ .panics := by
  unfold goroutineEnds at hk
  split at hk
  · cases hk
  · rename_i g hg
    split at hk
    · cases hk
    · rename_i hr
      split at hk
      · cases hk
      · rename_i k hf
        refine ⟨g, k, hg, by simpa using hr, hf, ?_⟩
        intro he
        subst he
        simp at hk

theorem goroutineEnds_goexit_eq (w : World) (i : Nat) (g : Goroutine) (k : Nat)
    (hg : w.goroutines[i]? = some g) (hr : g.status = .running) (hf : g.fn = some k) :
    goroutineEnds i .goexit w =
      .ok { w with goroutines := w.goroutines.set i { g with status := .exited } } := by
  simp [goroutineEnds, hg, hr, hf]

theorem inv_goroutineEnds (w w1 : World) (i : Nat) (e : Ending) (h : Inv w)
    (hk : goroutineEnds i e w = .ok w1) : Inv w1 := by
  obtain ⟨g, k, hg, hr, hf, he⟩ := goroutineEnds_ok w w1 i e hk
  cases e with
  | panics => exact absurd rfl he
  | goexit =>
    rw [goroutineEnds_goexit_eq w i g k hg hr hf] at hk
    cases hk
    refine ⟨?_, ?_⟩
    · simp only [pending_set_exited w.goroutines i g hg hr]
      exact h.count
    · rcases h.shape with rfl | hs
      · simp [zeroValue] at hg
      · exact Or.inr hs
  | returns =>
    rw [goroutineEnds_returns_eq w h i g k hg hr hf] at hk
    cases hk
    have hp := pending_set_finished w.goroutines i g hg hr
    have hc := h.count
    refine ⟨?_, Or.inr ⟨rfl, rfl, rfl, ?_⟩⟩
    · simp only
      omega
    · simp only [expectedClosed]
      have : (w.t.numAlive - 1 = 0) ↔ (w.t.numAlive = 1) := by omega
      simp only [this]

theorem inv_step (op : Op) (w w1 : World) (h : Inv w) (hs : step op w = .ok w1) : Inv w1 := by
  cases op with
  | go fn => cases hs; exact inv_Go fn w h
  | kill => exact inv_Kill w w1 h hs
  | dying => cases hs; exact inv_ensureInitialized w h
  | dead => cases hs; exact inv_ensureInitialized w h
  | alive => cases hs; exact h
  | isDead => cases hs; exact h
  | wait f p =>
    cases hs
    have : (Wait f p w).1 = ensureInitialized w := by
      simp only [Wait, Dead]
      split <;> [rfl; (split <;> [rfl; (split <;> rfl)])]
    rw [this]
    exact inv_ensureInitialized w h
  | ends i e => exact inv_goroutineEnds w w1 i e h hs

theorem inv_run (ops : List Op) (w w1 : World) (h : Inv w) (hr : run ops w = .ok w1) : Inv w1 := by
  induction ops generalizing w with
  | nil => cases hr; exact h
  | cons op ops ih =>
    simp only [run] at hr
    split at hr
    · cases hr
    · rename_i w2 hs
      exact ih w2 (inv_step op w w2 h hs) hr

theorem inv_of_reachable (w : World) (h : Reachable w) : Inv w := by
  obtain ⟨ops, hr⟩ := h
  exact inv_run ops zeroValue w inv_zeroValue hr

theorem ensureInitialized_t (w : World) :
    (ensureInitialized w).t.dying = w.t.dying ∧
    (ensureInitialized w).t.numAlive = w.t.numAlive ∧
    (ensureInitialized w).goroutines = w.goroutines := by
  unfold ensureInitialized
  split <;> simp [makeChan]

theorem Wait_fst (f p : Bool) (w : World) : (Wait f p w).1 = ensureInitialized w := by
  simp only [Wait, Dead]
  split <;> [rfl; (split <;> [rfl; (split <;> rfl)])]

theorem closeChan_ok (w w1 : World) (c : Chan) (h : closeChan w c = .ok w1) :
    w1.t = w.t ∧ w1.goroutines = w.goroutines := by
  unfold closeChan at h
  split at h
  · cases h
  · split at h
    · cases h
    · cases h; exact ⟨rfl, rfl⟩

theorem tryCloseDead_ok (w w1 : World) (h : tryCloseDead w = .ok w1) :
    w1.t = w.t ∧ w1.goroutines = w.goroutines := by
  unfold tryCloseDead at h
  split at h
  · exact closeChan_ok w w1 _ h
  · cases h; exact ⟨rfl, rfl⟩

theorem Kill_ok_dying (w w1 : World) (h : Kill w = .ok w1) : w1.t.dying = true := by
  unfold Kill at h
  split at h
  · rename_i hd
    cases h
    exact hd
  · dsimp only at h
    split at h
    · cases h
    · rename_i w3 h3
      have a := closeChan_ok _ _ _ h3
      have b := tryCloseDead_ok _ _ h
      rw [b.1, a.1]

theorem goroutineEnds_dying (w w1 : World) (i : Nat) (e : Ending)
    (h : goroutineEnds i e w = .ok w1) : w1.t.dying = w.t.dying := by
  unfold goroutineEnds at h
  split at h
  · cases h
  · split at h
    · cases h
    · split at h
      · cases h
      · split at h
        · cases h
        · cases h; rfl
        · dsimp only at h
          split at h
          · cases h
          · rename_i w2 h2
            cases h
            have b := tryCloseDead_ok _ _ h2
            simp only [b.1]

theorem step_dying_of_ne_kill (op : Op) (w w1 : World) (hne : op ≠ .kill)
    (h : step op w = .ok w1) : w1.t.dying = w.t.dying := by
  cases op with
  | go fn =>
    cases h
    simp only [Go]
    split
    · rfl
    · exact (ensureInitialized_t w).1
  | kill => exact absurd rfl hne
  | dying => cases h; exact (ensureInitialized_t w).1
  | dead => cases h; exact (ensureInitialized_t w).1
  | alive => cases h; rfl
  | isDead => cases h; rfl
  | wait f p => cases h; rw [Wait_fst]; exact (ensureInitialized_t w).1
  | ends i e => exact goroutineEnds_dying w w1 i e h

theorem step_dying_mono (op : Op) (w w1 : World) (h : step op w = .ok w1)
    (hd : w.t.dying = true) : w1.t.dying = true := by
  by_cases hk : op = .kill
  · subst hk; exact Kill_ok_dying w w1 h
  · rw [step_dying_of_ne_kill op w w1 hk h]; exact hd

theorem run_dying_mono (ops : List Op) (w w1 : World) (h : run ops w = .ok w1)
    (hd : w.t.dying = true) : w1.t.dying = true := by
  induction ops generalizing w with
  | nil => cases h; exact hd
  | cons op ops ih =>
    simp only [run] at h
    split at h
    · cases h
    · rename_i w2 hs
      exact ih w2 h (step_dying_mono op w w2 hs hd)

theorem run_dying_iff (ops : List Op) (w w1 : World) (h : run ops w = .ok w1) :
    w1.t.dying = true ↔ (w.t.dying = true ∨ Op.kill ∈ ops) := by
  induction ops generalizing w with
  | nil => cases h; simp
  | cons op ops ih =>
    simp only [run] at h
    split at h
    · cases h
    · rename_i w2 hs
      rw [ih w2 h]
      by_cases hk : op = .kill
      · subst hk
        have := Kill_ok_dying w w2 hs
        simp [this]
      · have := step_dying_of_ne_kill op w w2 hk hs
        rw [this]
        have hk2 : ¬ (Op.kill = op) := fun e => hk e.symm
        simp [hk2]

theorem pending_eq_zero_iff (gs : List Goroutine) :
    pending gs = 0 ↔ ∀ g ∈ gs, g.status = .finished := by
  simp [pending, List.countP_eq_zero]

theorem inv_dyingChan_closed (w : World) (h : Inv w) :
    isClosed w w.t.dyingChan = w.t.dying := by
  rcases h.shape with rfl | ⟨_, h2, _, h4⟩
  · rfl
  · rw [h2]
    simp only [isClosed, h4, expectedClosed]
    cases hd : w.t.dying <;> simp
    split <;> simp

theorem inv_deadChan_closed (w : World) (h : Inv w) :
    isClosed w w.t.deadChan = (w.t.dying && decide (w.t.numAlive = 0)) := by
  rcases h.shape with rfl | ⟨_, _, h3, h4⟩
  · rfl
  · rw [h3]
    simp only [isClosed, h4, expectedClosed]
    cases hd : w.t.dying <;> simp
    split <;> simp [*]

theorem inv_ensureInitialized_of_dying (w : World) (h : Inv w) (hd : w.t.dying = true) :
    ensureInitialized w = w := by
  rcases h.shape with rfl | ⟨_, h2, _, _⟩
  · simp [zeroValue] at hd
  · simp [ensureInitialized, h2]

theorem inv_closed_count (w : World) (h : Inv w) (c : Nat) : w.heap.closed.count c ≤ 1 := by
  rcases h.shape with rfl | ⟨_, _, _, h4⟩
  · simp [zeroValue]
  · rw [h4]
    simp only [expectedClosed]
    split
    · split
      · simp [List.count_cons]; split <;> split <;> omega
      · simp [List.count_cons]; split <;> omega
    · simp

theorem Kill_numAlive (w w1 : World) (h : Kill w = .ok w1) :
    w1.t.numAlive = w.t.numAlive := by
  unfold Kill at h
  split at h
  · cases h; rfl
  · dsimp only at h
    split at h
    · cases h
    · rename_i w3 h3
      have a := closeChan_ok _ _ _ h3
      have b := tryCloseDead_ok _ _ h
      rw [b.1, a.1]
      exact (ensureInitialized_t w).2.1

theorem goroutineEnds_numAlive (w w1 : World) (i : Nat) (e : Ending)
    (h : goroutineEnds i e w = .ok w1) :
    (e = .goexit ∧ w1.t.numAlive = w.t.numAlive) ∨
    (e = .returns ∧ w1.t.numAlive = w.t.numAlive - 1) := by
  unfold goroutineEnds at h
  split at h
  · cases h
  · split at h
    · cases h
    · split at h
      · cases h
      · split at h
        · cases h
        · cases h; exact Or.inl ⟨rfl, rfl⟩
        · dsimp only at h
          split at h
          · cases h
          · rename_i w2 h2
            cases h
            have b := tryCloseDead_ok _ _ h2
            exact Or.inr ⟨rfl, by simp only [b.1]⟩

theorem step_numAlive (op : Op) (w w1 : World) (h : step op w = .ok w1) :
    w1.t.numAlive = w.t.numAlive ∨
    (w1.t.numAlive = w.t.numAlive + 1 ∧
      ∃ fn, op = .go fn ∧ (Go fn w).2 = none ∧ w.t.dying = false) ∨
    (w1.t.numAlive = w.t.numAlive - 1 ∧
      ∃ i g, op = .ends i .returns ∧ w.goroutines[i]? = some g ∧ g.status = .running) := by
  cases op with
  | go fn =>
    cases h
    cases hd : w.t.dying with
    | true => left; simp [Go, hd]
    | false =>
      right; left
      refine ⟨?_, fn, rfl, ?_, rfl⟩
      · simp [Go, hd, (ensureInitialized_t w).2.1]
      · simp [Go, hd]
  | kill => exact Or.inl (Kill_numAlive w w1 h)
  | dying => cases h; exact Or.inl (ensureInitialized_t w).2.1
  | dead => cases h; exact Or.inl (ensureInitialized_t w).2.1
  | alive => cases h; exact Or.inl rfl
  | isDead => cases h; exact Or.inl rfl
  | wait f p => cases h; rw [Wait_fst]; exact Or.inl (ensureInitialized_t w).2.1
  | ends i e =>
    obtain ⟨g, k, hg, hr, _, _⟩ := goroutineEnds_ok w w1 i e h
    rcases goroutineEnds_numAlive w w1 i e h with ⟨_, h2⟩ | ⟨h1, h2⟩
    · exact Or.inl h2
    · subst h1
      exact Or.inr (Or.inr ⟨h2, i, g, rfl, hg, hr⟩)

theorem goroutineEnds_error (w : World) (h : Inv w) (i : Nat) (e : Ending) (s : Stop)
    (he : goroutineEnds i e w = .error s) :
    s = .notEnabled ∨ s = .panic .nilFuncCall ∨ s = .panic .taskPanic := by
  cases hg : w.goroutines[i]? with
  | none => simp [goroutineEnds, hg] at he; exact Or.inl he.symm
  | some g =>
    by_cases hr : g.status = .running
    · cases hf : g.fn with
      | none => simp [goroutineEnds, hg, hr, hf] at he; exact Or.inr (Or.inl he.symm)
      | some k =>
        cases e with
        | panics => simp [goroutineEnds, hg, hr, hf] at he; exact Or.inr (Or.inr he.symm)
        | goexit => simp [goroutineEnds, hg, hr, hf] at he
        | returns => rw [goroutineEnds_returns_eq w h i g k hg hr hf] at he; cases he
    · simp [goroutineEnds, hg, hr] at he; exact Or.inl he.symm

theorem Kill_ok_of_inv (w : World) (h : Inv w) : ∃ w1, Kill w = .ok w1 := by
  cases hd : w.t.dying with
  | true => exact ⟨w, Kill_of_dying w hd⟩
  | false => exact ⟨_, Kill_eq w h hd⟩

theorem step_error (op : Op) (w : World) (h : Inv w) (s : Stop) (he : step op w = .error s) :
    s = .notEnabled ∨ s = .panic .nilFuncCall ∨ s = .panic .taskPanic := by
  cases op with
  | kill =>
    obtain ⟨w1, h1⟩ := Kill_ok_of_inv w h
    simp only [step] at he
    rw [h1] at he
    cases he
  | ends i e => exact goroutineEnds_error w h i e s he
  | go fn => cases he
  | dying => cases he
  | dead => cases he
  | alive => cases he
  | isDead => cases he
  | wait f p => cases he

theorem run_error (ops : List Op) (w : World) (h : Inv w) (s : Stop)
    (he : run ops w = .error s) :
    s = .notEnabled ∨ s = .panic .nilFuncCall ∨ s = .panic .taskPanic := by
  induction ops generalizing w with
  | nil => cases he
  | cons op ops ih =>
    simp only [run] at he
    split at he
    · rename_i s1 hs
      cases he
      exact step_error op w h s hs
    · rename_i w2 hs
      exact ih w2 (inv_step op w w2 h hs) he

theorem inv_step_isDead (op : Op) (w w1 : World) (h : Inv w) (hs : step op w = .ok w1)
    (hd : IsDead w = true) : IsDead w1 = true := by
  simp only [IsDead, Bool.and_eq_true, decide_eq_true_eq] at hd ⊢
  obtain ⟨hdy, hn⟩ := hd
  refine ⟨step_dying_mono op w w1 hs hdy, ?_⟩
  rcases step_numAlive op w w1 hs with h1 | ⟨_, _, _, _, h2⟩ | ⟨_, i, g, _, hg, hr⟩
  · rw [h1]; exact hn
  · rw [hdy] at h2; cases h2
  · have hp := pending_set_finished w.goroutines i g hg hr
    have hc := h.count
    omega

theorem inv_run_isDead (ops : List Op) (w w1 : World) (h : Inv w) (hr : run ops w = .ok w1)
    (hd : IsDead w = true) : IsDead w1 = true := by
  induction ops generalizing w with
  | nil => cases hr; exact hd
  | cons op ops ih =>
    simp only [run] at hr
    split at hr
    · cases hr
    · rename_i w2 hs
      exact ih w2 (inv_step op w w2 h hs) hr (inv_step_isDead op w w2 h hs hd)

theorem inv_Wait_of_closed (w : World) (h : Inv w) (p : Bool)
    (hc : isClosed w w.t.deadChan = true) : Wait false p w = (w, .returned none) := by
  have hd : w.t.dying = true := by
    rw [inv_deadChan_closed w h] at hc
    simp at hc
    exact hc.1
  simp [Wait, Dead, inv_ensureInitialized_of_dying w h hd, hc]

/-! ## Channels and goroutines along a run -/

theorem ensureInitialized_of_made (w : World) (hc : w.t.dyingChan ≠ none) :
    ensureInitialized w = w := by
  simp [ensureInitialized, hc]

theorem ensureInitialized_closed (w : World) :
    (ensureInitialized w).heap.closed = w.heap.closed := by
  unfold ensureInitialized
  split <;> simp [makeChan]

theorem Kill_chans (w w1 : World) (h : Kill w = .ok w1) (hc : w.t.dyingChan ≠ none) :
    w1.t.dyingChan = w.t.dyingChan ∧ w1.t.deadChan = w.t.deadChan := by
  unfold Kill at h
  split at h
  · cases h; exact ⟨rfl, rfl⟩
  · dsimp only at h
    split at h
    · cases h
    · rename_i w3 h3
      have a := closeChan_ok _ _ _ h3
      have b := tryCloseDead_ok _ _ h
      rw [b.1, a.1, ensureInitialized_of_made w hc]
      exact ⟨rfl, rfl⟩

theorem Kill_goroutines (w w1 : World) (h : Kill w = .ok w1) :
    w1.goroutines = w.goroutines := by
  unfold Kill at h
  split at h
  · cases h; rfl
  · dsimp only at h
    split at h
    · cases h
    · rename_i w3 h3
      have a := closeChan_ok _ _ _ h3
      have b := tryCloseDead_ok _ _ h
      rw [b.2, a.2]
      exact (ensureInitialized_t w).2.2

theorem goroutineEnds_chans (w w1 : World) (i : Nat) (e : Ending)
    (h : goroutineEnds i e w = .ok w1) :
    w1.t.dyingChan = w.t.dyingChan ∧ w1.t.deadChan = w.t.deadChan := by
  unfold goroutineEnds at h
  split at h
  · cases h
  · split at h
    · cases h
    · split at h
      · cases h
      · split at h
        · cases h
        · cases h; exact ⟨rfl, rfl⟩
        · dsimp only at h
          split at h
          · cases h
          · rename_i w2 h2
            cases h
            have b := tryCloseDead_ok _ _ h2
            simp only [b.1, and_self]

theorem goroutineEnds_goroutines (w w1 : World) (i : Nat) (e : Ending)
    (h : goroutineEnds i e w = .ok w1) :
    ∃ g1 : Goroutine, w1.goroutines = w.goroutines.set i g1 := by
  unfold goroutineEnds at h
  split at h
  · cases h
  · rename_i g0 _
    split at h
    · cases h
    · split at h
      · cases h
      · split at h
        · cases h
        · cases h; exact ⟨{ g0 with status := .exited }, rfl⟩
        · dsimp only at h
          split at h
          · cases h
          · rename_i w2 h2
            cases h
            have b := tryCloseDead_ok _ _ h2
            exact ⟨{ g0 with status := .finished }, by simp only [b.2]⟩

theorem step_chans (op : Op) (w w1 : World) (hs : step op w = .ok w1)
    (hc : w.t.dyingChan ≠ none) :
    w1.t.dyingChan = w.t.dyingChan ∧ w1.t.deadChan = w.t.deadChan := by
  have hi := ensureInitialized_of_made w hc
  cases op with
  | go fn =>
    cases hs
    simp only [Go, hi]
    split <;> exact ⟨rfl, rfl⟩
  | kill => exact Kill_chans w w1 hs hc
  | dying => cases hs; simp only [Dying, hi, and_self]
  | dead => cases hs; simp only [Dead, hi, and_self]
  | alive => cases hs; exact ⟨rfl, rfl⟩
  | isDead => cases hs; exact ⟨rfl, rfl⟩
  | wait f p => cases hs; rw [Wait_fst, hi]; exact ⟨rfl, rfl⟩
  | ends i e => exact goroutineEnds_chans w w1 i e hs

theorem run_chans (ops : List Op) (w w1 : World) (hr : run ops w = .ok w1)
    (hc : w.t.dyingChan ≠ none) :
    w1.t.dyingChan = w.t.dyingChan ∧ w1.t.deadChan = w.t.deadChan := by
  induction ops generalizing w with
  | nil => cases hr; exact ⟨rfl, rfl⟩
  | cons op ops ih =>
    simp only [run] at hr
    split at hr
    · cases hr
    · rename_i w2 hs
      have h2 := step_chans op w w2 hs hc
      have h3 := ih w2 hr (by rw [h2.1]; exact hc)
      exact ⟨h3.1.trans h2.1, h3.2.trans h2.2⟩

theorem step_exited (op : Op) (w w1 : World) (i : Nat) (hs : step op w = .ok w1)
    (hg : ∃ g, w.goroutines[i]? = some g ∧ g.status = .exited) :
    ∃ g, w1.goroutines[i]? = some g ∧ g.status = .exited := by
  obtain ⟨g, hg, he⟩ := hg
  have hlt : i < w.goroutines.length := by
    rcases Nat.lt_or_ge i w.goroutines.length with h | h
    · exact h
    · rw [List.getElem?_eq_none h] at hg; cases hg
  have same : ∀ v : World, v.goroutines = w.goroutines →
      ∃ g, v.goroutines[i]? = some g ∧ g.status = .exited :=
    fun v hv => ⟨g, by rw [hv]; exact hg, he⟩
  cases op with
  | go fn =>
    cases hs
    simp only [Go]
    split
    · exact ⟨g, hg, he⟩
    · refine ⟨g, ?_, he⟩
      simp only [(ensureInitialized_t w).2.2]
      rw [List.getElem?_append_left hlt]
      exact hg
  | kill => exact same w1 (Kill_goroutines w w1 hs)
  | dying => cases hs; exact same _ (ensureInitialized_t w).2.2
  | dead => cases hs; exact same _ (ensureInitialized_t w).2.2
  | alive => cases hs; exact ⟨g, hg, he⟩
  | isDead => cases hs; exact ⟨g, hg, he⟩
  | wait f p => cases hs; rw [Wait_fst]; exact same _ (ensureInitialized_t w).2.2
  | ends j e =>
    obtain ⟨g2, _, hg2, hr2, _, _⟩ := goroutineEnds_ok w w1 j e hs
    obtain ⟨g1, h1⟩ := goroutineEnds_goroutines w w1 j e hs
    have hne : j ≠ i := by
      intro hji
      subst hji
      rw [hg] at hg2
      cases hg2
      rw [he] at hr2
      cases hr2
    refine ⟨g, ?_, he⟩
    rw [h1, List.getElem?_set_ne hne]
    exact hg

theorem run_exited (ops : List Op) (w w1 : World) (i : Nat) (hr : run ops w = .ok w1)
    (hg : ∃ g, w.goroutines[i]? = some g ∧ g.status = .exited) :
    ∃ g, w1.goroutines[i]? = some g ∧ g.status = .exited := by
  induction ops generalizing w with
  | nil => cases hr; exact hg
  | cons op ops ih =>
    simp only [run] at hr
    split at hr
    · cases hr
    · rename_i w2 hs
      exact ih w2 hr (step_exited op w w2 i hs hg)

theorem pending_pos (gs : List Goroutine) (i : Nat) (g : Goroutine)
    (hg : gs[i]? = some g) (hne : g.status ≠ .finished) : 0 < pending gs := by
  simp only [pending, List.countP_pos_iff]
  exact ⟨g, List.mem_iff_getElem?.2 ⟨i, hg⟩, by simpa using hne⟩

theorem run_append (ops1 ops2 : List Op) (w w1 w2 : World) (h1 : run ops1 w = .ok w1)
    (h2 : run ops2 w1 = .ok w2) : run (ops1 ++ ops2) w = .ok w2 := by
  induction ops1 generalizing w with
  | nil => cases h1; exact h2
  | cons op ops1 ih =>
    simp only [run, List.cons_append] at h1 ⊢
    split at h1
    · cases h1
    · rename_i w3 hs
      exact ih w3 h1

theorem reachable_run (ops : List Op) (w w1 : World) (h : Reachable w)
    (hr : run ops w = .ok w1) : Reachable w1 := by
  obtain ⟨ops0, h0⟩ := h
  exact ⟨ops0 ++ ops, run_append ops0 ops zeroValue w w1 h0 hr⟩

/-! ## The claims -/

/-- C1: on a Tomb with `dying = true` (Kill has completed; Dying or Dead), every
later `Go(fn)`, after any further events, returns `CannotStartDeadError` and
returns the state it was given: no goroutine is started, and `numAlive`, the
`dying` flag and both channels are as they were. -/
theorem C1_Go_rejected_once_dying (w w1 : World) (ops : List Op) (fn : Func)
    (hd : w.t.dying = true) (hr : run ops w = .ok w1) :
    Go fn w1 = (w1, some Error.CannotStartDeadError) := by
  have h1 := run_dying_mono ops w w1 hr hd
  simp [Go, h1]

theorem C1_Go_rejected_once_dying_witness :
    dyingWithOne.t.dying = true ∧
    run [.ends 0 .returns] dyingWithOne = .ok deadWithOne ∧
    Go (some 7) deadWithOne = (deadWithOne, some Error.CannotStartDeadError) :=
  ⟨rfl, rfl, C1_Go_rejected_once_dying dyingWithOne deadWithOne [.ends 0 .returns] (some 7) rfl rfl⟩

/-- C2: no premature Dead.  In every state reachable from the zero-value Tomb,
if the Dead channel is closed then `numAlive = 0` and every goroutine started by
`Go` has returned and finished its bookkeeping (none is pending). -/
theorem C2_no_premature_dead (w : World) (h : Reachable w)
    (hc : isClosed w w.t.deadChan = true) :
    w.t.numAlive = 0 ∧ pending w.goroutines = 0 ∧
    ∀ g ∈ w.goroutines, g.status = .finished := by
  have hi := inv_of_reachable w h
  rw [inv_deadChan_closed w hi] at hc
  simp only [Bool.and_eq_true, decide_eq_true_eq] at hc
  have hp : pending w.goroutines = 0 := by
    have := hi.count
    omega
  exact ⟨hc.2, hp, (pending_eq_zero_iff w.goroutines).1 hp⟩

theorem C2_no_premature_dead_witness :
    Reachable deadWithOne ∧ isClosed deadWithOne deadWithOne.t.deadChan = true ∧
    (deadWithOne.t.numAlive = 0 ∧ pending deadWithOne.goroutines = 0 ∧
      ∀ g ∈ deadWithOne.goroutines, g.status = .finished) :=
  ⟨⟨[.go (some 0), .kill, .ends 0 .returns], rfl⟩, rfl,
    C2_no_premature_dead deadWithOne ⟨[.go (some 0), .kill, .ends 0 .returns], rfl⟩ rfl⟩

/-- C3: for every run from the zero-value Tomb in which Kill is called and at the
end of which all the goroutines admitted by `Go` (any number of them) have
returned, wherever the Kill falls, the final state is Dead: the Dead channel is
closed, `IsDead` is true, and `Wait` whose timer has not fired returns nil. -/
theorem C3_all_returned_and_killed_is_dead (ops : List Op) (w : World) (p : Bool)
    (hr : run ops zeroValue = .ok w) (hk : Op.kill ∈ ops)
    (hall : ∀ g ∈ w.goroutines, g.status = .finished) :
    isClosed w w.t.deadChan = true ∧ IsDead w = true ∧
    Wait false p w = (w, .returned none) := by
  have hi := inv_of_reachable w ⟨ops, hr⟩
  have hd : w.t.dying = true := (run_dying_iff ops zeroValue w hr).2 (Or.inr hk)
  have hp : pending w.goroutines = 0 := (pending_eq_zero_iff w.goroutines).2 hall
  have hn : w.t.numAlive = 0 := by
    have := hi.count
    omega
  have hc : isClosed w w.t.deadChan = true := by
    rw [inv_deadChan_closed w hi]; simp [hd, hn]
  exact ⟨hc, by simp [IsDead, hd, hn], inv_Wait_of_closed w hi p hc⟩

theorem C3_all_returned_and_killed_is_dead_witness :
    run happyFlow zeroValue = .ok happyFlowEnd ∧ Op.kill ∈ happyFlow ∧
    (∀ g ∈ happyFlowEnd.goroutines, g.status = .finished) ∧
    (isClosed happyFlowEnd happyFlowEnd.t.deadChan = true ∧ IsDead happyFlowEnd = true ∧
      Wait false true happyFlowEnd = (happyFlowEnd, .returned none)) :=
  ⟨rfl, by decide, by decide,
    C3_all_returned_and_killed_is_dead happyFlow happyFlowEnd true rfl (by decide) (by decide)⟩

/-- C4 as stated fails: after `Kill` on the zero-value Tomb the Tomb is Dead, but
a `Wait` whose timer has already fired can take the timer case of its `select`
and return `WaitTimeoutError`. -/
theorem C4_wait_after_kill_can_time_out :
    Kill zeroValue = .ok killedEmpty ∧ IsDead killedEmpty = true ∧
    Wait true true killedEmpty = (killedEmpty, .returned (some Error.WaitTimeoutError)) :=
  ⟨rfl, rfl, rfl⟩

/-- C4 (amended): on a reachable Tomb that is not dying both channels are still
open and `Kill` succeeds and closes the Dying channel.  When `numAlive = 0` the
same call also closes the Dead channel, so right after it `IsDead` is true and
a `Wait` whose timer has not fired returns nil.  When `numAlive > 0` the call
leaves the Dead channel open. -/
theorem C4_kill_zero_tasks_immediate_death (w : World) (p : Bool) (h : Reachable w)
    (hd : w.t.dying = false) :
    isClosed w w.t.dyingChan = false ∧ isClosed w w.t.deadChan = false ∧
    ∃ w1, Kill w = .ok w1 ∧ isClosed w1 w1.t.dyingChan = true ∧
      (w.t.numAlive = 0 →
        isClosed w1 w1.t.deadChan = true ∧ IsDead w1 = true ∧
        Wait false p w1 = (w1, .returned none)) ∧
      (0 < w.t.numAlive → isClosed w1 w1.t.deadChan = false ∧ IsDead w1 = false) := by
  have hi := inv_of_reachable w h
  obtain ⟨w1, hk⟩ := Kill_ok_of_inv w hi
  have hi1 := inv_Kill w w1 hi hk
  have hd1 := Kill_ok_dying w w1 hk
  have hn1 := Kill_numAlive w w1 hk
  refine ⟨by rw [inv_dyingChan_closed w hi, hd], by rw [inv_deadChan_closed w hi, hd]; rfl,
    w1, hk, by rw [inv_dyingChan_closed w1 hi1, hd1], ?_, ?_⟩
  · intro hn
    have hc : isClosed w1 w1.t.deadChan = true := by
      rw [inv_deadChan_closed w1 hi1]; simp [hd1, hn1, hn]
    exact ⟨hc, by simp [IsDead, hd1, hn1, hn], inv_Wait_of_closed w1 hi1 p hc⟩
  · intro hn
    have hn0 : w.t.numAlive ≠ 0 := by omega
    exact ⟨by rw [inv_deadChan_closed w1 hi1]; simp [hn1, hn0], by simp [IsDead, hn1, hn0]⟩

theorem C4_kill_zero_tasks_immediate_death_witness :
    Reachable zeroValue ∧ zeroValue.t.dying = false ∧
    (isClosed zeroValue zeroValue.t.dyingChan = false ∧
     isClosed zeroValue zeroValue.t.deadChan = false ∧
     ∃ w1, Kill zeroValue = .ok w1 ∧ isClosed w1 w1.t.dyingChan = true ∧
      (zeroValue.t.numAlive = 0 →
        isClosed w1 w1.t.deadChan = true ∧ IsDead w1 = true ∧
        Wait false true w1 = (w1, .returned none)) ∧
      (0 < zeroValue.t.numAlive → isClosed w1 w1.t.deadChan = false ∧ IsDead w1 = false)) :=
  ⟨⟨[], rfl⟩, rfl, C4_kill_zero_tasks_immediate_death zeroValue true ⟨[], rfl⟩ rfl⟩

/-- C5: Kill is idempotent.  On every reachable state `Kill` returns without a
panic, and `Kill` applied to its result returns that same result; and on any
state at all with `dying = true`, `Kill` is the identity. -/
theorem C5_Kill_idempotent (s : World) (h : Reachable s) :
    (∃ s1, Kill s = .ok s1 ∧ s1.t.dying = true ∧ Kill s1 = .ok s1) ∧
    ∀ w : World, w.t.dying = true → Kill w = .ok w := by
  obtain ⟨s1, h1⟩ := Kill_ok_of_inv s (inv_of_reachable s h)
  have hd := Kill_ok_dying s s1 h1
  exact ⟨⟨s1, h1, hd, Kill_of_dying s1 hd⟩, fun w hw => Kill_of_dying w hw⟩

theorem C5_Kill_idempotent_witness :
    Reachable aliveWithOne ∧
    ((∃ s1, Kill aliveWithOne = .ok s1 ∧ s1.t.dying = true ∧ Kill s1 = .ok s1) ∧
      ∀ w : World, w.t.dying = true → Kill w = .ok w) :=
  ⟨⟨[.go (some 0)], rfl⟩, C5_Kill_idempotent aliveWithOne ⟨[.go (some 0)], rfl⟩⟩

/-- Outside the reachable states `close` can panic: a Tomb whose Dying channel
exists while its Dead channel is nil makes `Kill` close a nil channel. -/
theorem Kill_can_panic_when_unreachable :
    Kill { heap := { next := 1, closed := [] }
           t := { numAlive := 0, dyingChan := some 0, dying := false, deadChan := none }
           goroutines := [] } = .error (.panic .closeOfNilChannel) :=
  rfl

/-- C6: along every sequence of events from the zero-value Tomb no `close` panics:
the run never stops with a close of a nil channel nor with a close of a closed
channel, and in the state it reaches every channel has been closed at most once. -/
theorem C6_no_close_panic (ops : List Op) :
    run ops zeroValue ≠ .error (.panic .closeOfNilChannel) ∧
    run ops zeroValue ≠ .error (.panic .closeOfClosedChannel) ∧
    ∀ w : World, run ops zeroValue = .ok w → ∀ c : Nat, w.heap.closed.count c ≤ 1 := by
  refine ⟨?_, ?_, ?_⟩
  · intro he
    rcases run_error ops zeroValue inv_zeroValue _ he with h | h | h <;> cases h
  · intro he
    rcases run_error ops zeroValue inv_zeroValue _ he with h | h | h <;> cases h
  · intro w hr c
    exact inv_closed_count w (inv_of_reachable w ⟨ops, hr⟩) c

theorem C6_no_close_panic_witness :
    run happyFlow zeroValue ≠ .error (.panic .closeOfNilChannel) ∧
    run happyFlow zeroValue ≠ .error (.panic .closeOfClosedChannel) ∧
    ∀ w : World, run happyFlow zeroValue = .ok w → ∀ c : Nat, w.heap.closed.count c ≤ 1 :=
  C6_no_close_panic happyFlow

/-- C7: states are monotonic.  From a reachable state, after any further events
(Go, Kill, goroutine ends, observer calls), if `Alive` was false it is still
false, and if `IsDead` was true it is still true. -/
theorem C7_states_monotonic (w w1 : World) (ops : List Op) (h : Reachable w)
    (hr : run ops w = .ok w1) :
    (Alive w = false → Alive w1 = false) ∧ (IsDead w = true → IsDead w1 = true) := by
  refine ⟨?_, inv_run_isDead ops w w1 (inv_of_reachable w h) hr⟩
  intro ha
  have hd : w.t.dying = true := by simpa [Alive] using ha
  simp [Alive, run_dying_mono ops w w1 hr hd]

theorem C7_states_monotonic_witness :
    Reachable dyingWithOne ∧ run [.go (some 3), .ends 0 .returns, .dying] dyingWithOne = .ok deadWithOne ∧
    ((Alive dyingWithOne = false → Alive deadWithOne = false) ∧
      (IsDead dyingWithOne = true → IsDead deadWithOne = true)) :=
  ⟨⟨[.go (some 0), .kill], rfl⟩, rfl,
    C7_states_monotonic dyingWithOne deadWithOne [.go (some 3), .ends 0 .returns, .dying]
      ⟨[.go (some 0), .kill], rfl⟩ rfl⟩

/-- C8: in every reachable state `numAlive` is not negative and equals the number
of goroutines started by a successful `Go` that have not returned (`pending`:
their lines 39-42 have not run).  A transition that
raises it is a `Go` that returns nil on a Tomb with `dying = false`, and raises
it by one; a transition that lowers it is the return of a running goroutine
started by `Go`, and lowers it by one. -/
theorem C8_numAlive_counts_pending (w : World) (h : Reachable w) :
    0 ≤ w.t.numAlive ∧ w.t.numAlive = (pending w.goroutines : Int) ∧
    ∀ (op : Op) (w1 : World), step op w = .ok w1 →
      (w.t.numAlive < w1.t.numAlive →
        w1.t.numAlive = w.t.numAlive + 1 ∧
        ∃ fn, op = .go fn ∧ (Go fn w).2 = none ∧ w.t.dying = false) ∧
      (w1.t.numAlive < w.t.numAlive →
        w1.t.numAlive = w.t.numAlive - 1 ∧
        ∃ i g, op = .ends i .returns ∧ w.goroutines[i]? = some g ∧ g.status = .running) := by
  have hc := (inv_of_reachable w h).count
  refine ⟨by omega, hc, ?_⟩
  intro op w1 hs
  rcases step_numAlive op w w1 hs with h1 | ⟨h1, h2⟩ | ⟨h1, h2⟩
  · exact ⟨fun hlt => by omega, fun hlt => by omega⟩
  · exact ⟨fun _ => ⟨h1, h2⟩, fun hlt => by omega⟩
  · exact ⟨fun hlt => by omega, fun _ => ⟨h1, h2⟩⟩

theorem C8_numAlive_counts_pending_witness :
    Reachable aliveWithOne ∧
    (0 ≤ aliveWithOne.t.numAlive ∧
     aliveWithOne.t.numAlive = (pending aliveWithOne.goroutines : Int) ∧
     ∀ (op : Op) (w1 : World), step op aliveWithOne = .ok w1 →
      (aliveWithOne.t.numAlive < w1.t.numAlive →
        w1.t.numAlive = aliveWithOne.t.numAlive + 1 ∧
        ∃ fn, op = .go fn ∧ (Go fn aliveWithOne).2 = none ∧ aliveWithOne.t.dying = false) ∧
      (w1.t.numAlive < aliveWithOne.t.numAlive →
        w1.t.numAlive = aliveWithOne.t.numAlive - 1 ∧
        ∃ i g, op = .ends i .returns ∧ aliveWithOne.goroutines[i]? = some g ∧
          g.status = .running)) :=
  ⟨⟨[.go (some 0)], rfl⟩, C8_numAlive_counts_pending aliveWithOne ⟨[.go (some 0)], rfl⟩⟩

/-- C9: in every reachable state `IsDead()` is true exactly when the Dead channel
is closed, both for the channel stored in the Tomb and for the channel that a
call of `Dead()` returns. -/
theorem C9_IsDead_iff_dead_closed (w : World) (h : Reachable w) :
    (IsDead w = true ↔ isClosed w w.t.deadChan = true) ∧
    IsDead w = isClosed (Dead w).1 (Dead w).2 := by
  have hi := inv_of_reachable w h
  have hi1 := inv_ensureInitialized w hi
  obtain ⟨e1, e2, _⟩ := ensureInitialized_t w
  refine ⟨by rw [inv_deadChan_closed w hi]; rfl, ?_⟩
  simp only [Dead, IsDead]
  rw [inv_deadChan_closed _ hi1, e1, e2]

theorem C9_IsDead_iff_dead_closed_witness :
    Reachable killedEmpty ∧
    ((IsDead killedEmpty = true ↔ isClosed killedEmpty killedEmpty.t.deadChan = true) ∧
      IsDead killedEmpty = isClosed (Dead killedEmpty).1 (Dead killedEmpty).2) :=
  ⟨⟨[.kill], rfl⟩, C9_IsDead_iff_dead_closed killedEmpty ⟨[.kill], rfl⟩⟩

/-- C10: at the end of every run from the zero-value Tomb, `Alive()` is true
exactly when the run contains no call of `Kill`, and exactly when the channel
that `Dying()` returns is not closed. -/
theorem C10_Alive_iff_never_killed (ops : List Op) (w : World)
    (hr : run ops zeroValue = .ok w) :
    (Alive w = true ↔ Op.kill ∉ ops) ∧
    (Alive w = true ↔ isClosed (Dying w).1 (Dying w).2 = false) ∧
    (Alive w = true ↔ isClosed w w.t.dyingChan = false) := by
  have hi := inv_of_reachable w ⟨ops, hr⟩
  have hi1 := inv_ensureInitialized w hi
  have hk := run_dying_iff ops zeroValue w hr
  refine ⟨?_, ?_, ?_⟩
  · have hz : zeroValue.t.dying = false := rfl
    rw [hz] at hk
    cases hd : w.t.dying with
    | true =>
      have := hk.1 hd
      simp at this
      simp [Alive, hd, this]
    | false =>
      have hn : Op.kill ∉ ops := fun hm => by
        have := hk.2 (Or.inr hm)
        rw [hd] at this
        cases this
      simp [Alive, hd, hn]
  · simp only [Dying]
    rw [inv_dyingChan_closed _ hi1, (ensureInitialized_t w).1]
    simp [Alive]
  · rw [inv_dyingChan_closed w hi]
    simp [Alive]

theorem C10_Alive_iff_never_killed_witness :
    run [.go (some 0), .kill] zeroValue = .ok dyingWithOne ∧
    ((Alive dyingWithOne = true ↔ Op.kill ∉ [Op.go (some 0), Op.kill]) ∧
     (Alive dyingWithOne = true ↔
        isClosed (Dying dyingWithOne).1 (Dying dyingWithOne).2 = false) ∧
     (Alive dyingWithOne = true ↔ isClosed dyingWithOne dyingWithOne.t.dyingChan = false)) :=
  ⟨rfl, C10_Alive_iff_never_killed [.go (some 0), .kill] dyingWithOne rfl⟩

/-- C11: Dead implies Dying.  In every reachable state, if the Dead channel is
closed then the Dying channel is closed and the `dying` flag is true. -/
theorem C11_dead_implies_dying (w : World) (h : Reachable w)
    (hc : isClosed w w.t.deadChan = true) :
    isClosed w w.t.dyingChan = true ∧ w.t.dying = true := by
  have hi := inv_of_reachable w h
  rw [inv_deadChan_closed w hi] at hc
  simp only [Bool.and_eq_true, decide_eq_true_eq] at hc
  exact ⟨by rw [inv_dyingChan_closed w hi]; exact hc.1, hc.1⟩

theorem C11_dead_implies_dying_witness :
    Reachable happyFlowEnd ∧ isClosed happyFlowEnd happyFlowEnd.t.deadChan = true ∧
    (isClosed happyFlowEnd happyFlowEnd.t.dyingChan = true ∧ happyFlowEnd.t.dying = true) :=
  ⟨⟨happyFlow, rfl⟩, rfl, C11_dead_implies_dying happyFlowEnd ⟨happyFlow, rfl⟩ rfl⟩

/-- C12: timeout fidelity.  In any state `Wait` returns nil only if the channel
of `Dead()` is closed, and returns `WaitTimeoutError` only if its timer has
fired.  On a reachable killed Tomb with a goroutine `i` that has not returned,
`Wait` cannot return nil: it stays blocked until its timer fires and then
returns `WaitTimeoutError`.  Once the outstanding goroutines have returned the
Tomb is Dead and a `Wait` whose timer has not fired returns nil; when `i` is the
one outstanding goroutine, its return is that step. -/
theorem C12_timeout_fidelity (w : World) (i : Nat) (g : Goroutine) (k : Nat) (p : Bool)
    (h : Reachable w) (hd : w.t.dying = true)
    (hg : w.goroutines[i]? = some g) (hr : g.status = .running) (hf : g.fn = some k) :
    (∀ (v : World) (a b : Bool), (Wait a b v).2 = .returned none →
      isClosed (Dead v).1 (Dead v).2 = true) ∧
    (∀ (v : World) (a b : Bool), (Wait a b v).2 = .returned (some .WaitTimeoutError) →
      a = true) ∧
    (∀ a b : Bool, (Wait a b w).2 ≠ .returned none) ∧
    Wait true p w = (w, .returned (some .WaitTimeoutError)) ∧
    Wait false p w = (w, .blocked) ∧
    (∀ (ops : List Op) (w1 : World), run ops w = .ok w1 →
      (∀ g1 ∈ w1.goroutines, g1.status = .finished) →
      IsDead w1 = true ∧ isClosed w1 w1.t.deadChan = true ∧
      Wait false p w1 = (w1, .returned none)) ∧
    (w.t.numAlive = 1 → ∃ w1, goroutineEnds i .returns w = .ok w1 ∧
      IsDead w1 = true ∧ isClosed w1 w1.t.deadChan = true ∧
      Wait false p w1 = (w1, .returned none)) := by
  have hi := inv_of_reachable w h
  have hini := inv_ensureInitialized_of_dying w hi hd
  have hpos := pending_pos w.goroutines i g hg (by rw [hr]; decide)
  have hn : w.t.numAlive ≠ 0 := by
    have := hi.count
    omega
  have hopen : isClosed w w.t.deadChan = false := by
    rw [inv_deadChan_closed w hi]; simp [hn]
  have gen1 : ∀ (v : World) (a b : Bool), (Wait a b v).2 = .returned none →
      isClosed (Dead v).1 (Dead v).2 = true := by
    intro v a b hw
    cases hc : isClosed (Dead v).1 (Dead v).2 with
    | true => rfl
    | false =>
      cases a <;> simp [Wait, hc] at hw
  have gen2 : ∀ (v : World) (a b : Bool),
      (Wait a b v).2 = .returned (some .WaitTimeoutError) → a = true := by
    intro v a b hw
    cases a with
    | true => rfl
    | false =>
      cases hc : isClosed (Dead v).1 (Dead v).2 <;> simp [Wait, hc] at hw
  refine ⟨gen1, gen2, ?_, ?_, ?_, ?_, ?_⟩
  · intro a b hw
    have := gen1 w a b hw
    simp only [Dead, hini] at this
    rw [hopen] at this
    cases this
  · simp [Wait, Dead, hini, hopen]
  · simp [Wait, Dead, hini, hopen]
  · intro ops w1 hr1 hall
    have hi1 := inv_run ops w w1 hi hr1
    have hd1 := run_dying_mono ops w w1 hr1 hd
    have hp : pending w1.goroutines = 0 := (pending_eq_zero_iff w1.goroutines).2 hall
    have hn1 : w1.t.numAlive = 0 := by
      have := hi1.count
      omega
    have hc : isClosed w1 w1.t.deadChan = true := by
      rw [inv_deadChan_closed w1 hi1]; simp [hd1, hn1]
    exact ⟨by simp [IsDead, hd1, hn1], hc, inv_Wait_of_closed w1 hi1 p hc⟩
  · intro hone
    obtain ⟨w1, hw1⟩ : ∃ w1, goroutineEnds i .returns w = .ok w1 :=
      ⟨_, goroutineEnds_returns_eq w hi i g k hg hr hf⟩
    have hi1 := inv_goroutineEnds w w1 i .returns hi hw1
    have hd1 : w1.t.dying = true := by
      rw [goroutineEnds_dying w w1 i .returns hw1]; exact hd
    have hn1 : w1.t.numAlive = 0 := by
      rcases goroutineEnds_numAlive w w1 i .returns hw1 with ⟨h1, _⟩ | ⟨_, h2⟩
      · cases h1
      · omega
    have hc : isClosed w1 w1.t.deadChan = true := by
      rw [inv_deadChan_closed w1 hi1]; simp [hd1, hn1]
    exact ⟨w1, hw1, by simp [IsDead, hd1, hn1], hc, inv_Wait_of_closed w1 hi1 p hc⟩

theorem C12_timeout_fidelity_witness :
    Reachable dyingWithOne ∧ dyingWithOne.t.dying = true ∧
    dyingWithOne.goroutines[0]? = some { fn := some 0, status := .running } ∧
    Wait true false dyingWithOne = (dyingWithOne, .returned (some .WaitTimeoutError)) ∧
    (dyingWithOne.t.numAlive = 1 → ∃ w1, goroutineEnds 0 .returns dyingWithOne = .ok w1 ∧
      IsDead w1 = true ∧ isClosed w1 w1.t.deadChan = true ∧
      Wait false false w1 = (w1, .returned none)) :=
  ⟨⟨[.go (some 0), .kill], rfl⟩, rfl, rfl,
    (C12_timeout_fidelity dyingWithOne 0 { fn := some 0, status := .running } 0 false
      ⟨[.go (some 0), .kill], rfl⟩ rfl rfl rfl rfl).2.2.2.1,
    (C12_timeout_fidelity dyingWithOne 0 { fn := some 0, status := .running } 0 false
      ⟨[.go (some 0), .kill], rfl⟩ rfl rfl rfl rfl).2.2.2.2.2.2⟩

/-- C13 as stated fails: on a reachable Tomb whose Dead channel is closed, a
`Wait` whose timer has already elapsed has both cases of its `select` ready and
can return `WaitTimeoutError` instead of nil. -/
theorem C13_elapsed_wait_on_dead_can_time_out :
    run [.go (some 0), .kill, .ends 0 .returns] zeroValue = .ok deadWithOne ∧
    isClosed deadWithOne deadWithOne.t.deadChan = true ∧
    (Wait true true deadWithOne).2 = .returned (some Error.WaitTimeoutError) :=
  ⟨rfl, rfl, rfl⟩

/-- C13 (amended): on a reachable Tomb whose Dead channel is closed, `Wait`
returns nil when its timer has not fired, and with an elapsed timer returns
nil or `WaitTimeoutError`, whichever ready case the `select` picks; on a
reachable Tomb whose Dead channel is not closed, `Wait` with an elapsed timer
returns `WaitTimeoutError`.  With an elapsed timer `Wait` never stays blocked,
and `Wait` has no panic. -/
theorem C13_wait_with_elapsed_timer (w : World) (p : Bool) (h : Reachable w) :
    (isClosed w w.t.deadChan = true →
      Wait false p w = (w, .returned none) ∧
      Wait true p w = (w, .returned (if p then some .WaitTimeoutError else none))) ∧
    (isClosed w w.t.deadChan = false →
      (Wait true p w).2 = .returned (some .WaitTimeoutError)) ∧
    (Wait true p w).2 ≠ .blocked ∧
    step (.wait true p) w = .ok (Wait true p w).1 := by
  have hi := inv_of_reachable w h
  have hi1 := inv_ensureInitialized w hi
  obtain ⟨e1, e2, _⟩ := ensureInitialized_t w
  have hsame : isClosed (Dead w).1 (Dead w).2 = isClosed w w.t.deadChan := by
    simp only [Dead]
    rw [inv_deadChan_closed _ hi1, inv_deadChan_closed w hi, e1, e2]
  refine ⟨?_, ?_, ?_, rfl⟩
  · intro hc
    have hd : w.t.dying = true := by
      rw [inv_deadChan_closed w hi] at hc
      simp only [Bool.and_eq_true] at hc
      exact hc.1
    have hini := inv_ensureInitialized_of_dying w hi hd
    refine ⟨inv_Wait_of_closed w hi p hc, ?_⟩
    simp [Wait, Dead, hini, hc]
  · intro hc
    rw [← hsame] at hc
    simp [Wait, hc]
  · cases hc : isClosed (Dead w).1 (Dead w).2 <;> simp [Wait, hc]

theorem C13_wait_with_elapsed_timer_witness :
    Reachable killedEmpty ∧
    ((isClosed killedEmpty killedEmpty.t.deadChan = true →
      Wait false false killedEmpty = (killedEmpty, .returned none) ∧
      Wait true false killedEmpty =
        (killedEmpty, .returned (if false then some .WaitTimeoutError else none))) ∧
    (isClosed killedEmpty killedEmpty.t.deadChan = false →
      (Wait true false killedEmpty).2 = .returned (some .WaitTimeoutError)) ∧
    (Wait true false killedEmpty).2 ≠ .blocked ∧
    step (.wait true false) killedEmpty = .ok (Wait true false killedEmpty).1) :=
  ⟨⟨[.kill], rfl⟩, C13_wait_with_elapsed_timer killedEmpty false ⟨[.kill], rfl⟩⟩

/-- C14: observation is pure.  On every reachable state, `Wait` (whatever it
returns), `Dying` and `Dead` leave the state `ensureInitialized` gives, and
`Alive` and `IsDead` leave the state as it is.  That state has the same
`numAlive`, `dying` flag, goroutines and closed channels, and both channels are
closed or open as before; it is the same state when the channels exist
already, and otherwise the two channels are new and open. -/
theorem C14_observers_pure (w : World) (f p : Bool) (h : Reachable w) :
    (Wait f p w).1 = ensureInitialized w ∧ (Dying w).1 = ensureInitialized w ∧
    (Dead w).1 = ensureInitialized w ∧
    step .alive w = .ok w ∧ step .isDead w = .ok w ∧
    (ensureInitialized w).t.numAlive = w.t.numAlive ∧
    (ensureInitialized w).t.dying = w.t.dying ∧
    (ensureInitialized w).goroutines = w.goroutines ∧
    (ensureInitialized w).heap.closed = w.heap.closed ∧
    isClosed (ensureInitialized w) (ensureInitialized w).t.dyingChan
      = isClosed w w.t.dyingChan ∧
    isClosed (ensureInitialized w) (ensureInitialized w).t.deadChan
      = isClosed w w.t.deadChan ∧
    (w.t.dyingChan ≠ none → ensureInitialized w = w) ∧
    (w.t.dyingChan = none →
      (ensureInitialized w).t.dyingChan ≠ none ∧ (ensureInitialized w).t.deadChan ≠ none ∧
      isClosed (ensureInitialized w) (ensureInitialized w).t.dyingChan = false ∧
      isClosed (ensureInitialized w) (ensureInitialized w).t.deadChan = false) := by
  have hi := inv_of_reachable w h
  have hi1 := inv_ensureInitialized w hi
  obtain ⟨e1, e2, e3⟩ := ensureInitialized_t w
  obtain ⟨_, s2, s3, _⟩ := ensureInitialized_shape w hi
  have c1 : isClosed (ensureInitialized w) (ensureInitialized w).t.dyingChan
      = isClosed w w.t.dyingChan := by
    rw [inv_dyingChan_closed _ hi1, inv_dyingChan_closed w hi, e1]
  have c2 : isClosed (ensureInitialized w) (ensureInitialized w).t.deadChan
      = isClosed w w.t.deadChan := by
    rw [inv_deadChan_closed _ hi1, inv_deadChan_closed w hi, e1, e2]
  refine ⟨Wait_fst f p w, rfl, rfl, rfl, rfl, e2, e1, e3, ensureInitialized_closed w, c1, c2,
    ensureInitialized_of_made w, ?_⟩
  intro hnone
  refine ⟨by rw [s2]; simp, by rw [s3]; simp, ?_, ?_⟩
  · rw [c1, hnone]; rfl
  · rw [c2]
    rcases hi.shape with rfl | ⟨_, h2, _, _⟩
    · rfl
    · rw [h2] at hnone; cases hnone

theorem C14_observers_pure_witness :
    Reachable zeroValue ∧
    (Wait true false zeroValue).1 = ensureInitialized zeroValue ∧
    (ensureInitialized zeroValue).t.numAlive = zeroValue.t.numAlive ∧
    (ensureInitialized zeroValue).heap.closed = zeroValue.heap.closed :=
  ⟨⟨[], rfl⟩, (C14_observers_pure zeroValue true false ⟨[], rfl⟩).1,
    (C14_observers_pure zeroValue true false ⟨[], rfl⟩).2.2.2.2.2.1,
    (C14_observers_pure zeroValue true false ⟨[], rfl⟩).2.2.2.2.2.2.2.2.1⟩

/-- C15: on a reachable Tomb that is not dying (with `numAlive` below the largest
`int`, so that line 36 does not wrap), `Go(fn)` returns nil and changes the
state in exactly this way: the channels are made if they were not, `numAlive`
goes up by exactly 1, and exactly one goroutine, which runs `fn`, is started.
The `dying` flag stays false, no channel is closed and both channels are open
afterwards. -/
theorem C15_Go_admits_when_alive (w : World) (fn : Func) (h : Reachable w)
    (hd : w.t.dying = false) (hb : w.t.numAlive < maxInt) :
    Go fn w =
      ({ heap := (ensureInitialized w).heap
         t := { numAlive := w.t.numAlive + 1
                dyingChan := (ensureInitialized w).t.dyingChan
                dying := false
                deadChan := (ensureInitialized w).t.deadChan }
         goroutines := w.goroutines ++ [{ fn := fn, status := .running }] }, none) ∧
    (Go fn w).2 = none ∧
    (Go fn w).1.goroutines = w.goroutines ++ [{ fn := fn, status := .running }] ∧
    (Go fn w).1.t.numAlive = w.t.numAlive + 1 ∧
    (Go fn w).1.t.numAlive ≤ maxInt ∧
    (Go fn w).1.t.dying = false ∧
    (Go fn w).1.heap.closed = w.heap.closed ∧
    isClosed (Go fn w).1 (Go fn w).1.t.dyingChan = false ∧
    isClosed (Go fn w).1 (Go fn w).1.t.deadChan = false := by
  obtain ⟨e1, e2, e3⟩ := ensureInitialized_t w
  have hdy : (Go fn w).1.t.dying = false := by simp [Go, hd, e1]
  have hnum : (Go fn w).1.t.numAlive = w.t.numAlive + 1 := by simp [Go, hd, e2]
  have hi1 := inv_Go fn w (inv_of_reachable w h)
  refine ⟨?_, by simp [Go, hd], by simp [Go, hd, e3], hnum, by rw [hnum]; omega, hdy,
    by simp [Go, hd, ensureInitialized_closed],
    by rw [inv_dyingChan_closed _ hi1, hdy],
    by rw [inv_deadChan_closed _ hi1, hdy]; rfl⟩
  have e1d : (ensureInitialized w).t.dying = false := by rw [e1, hd]
  simp only [Go, hd, Bool.false_eq_true, if_false, e2, e3, e1d]

theorem C15_Go_admits_when_alive_witness :
    Reachable aliveWithOne ∧ aliveWithOne.t.dying = false ∧
    aliveWithOne.t.numAlive < maxInt ∧
    (Go (some 1) aliveWithOne).2 = none ∧
    (Go (some 1) aliveWithOne).1.goroutines
      = aliveWithOne.goroutines ++ [{ fn := some 1, status := .running }] ∧
    (Go (some 1) aliveWithOne).1.t.numAlive = aliveWithOne.t.numAlive + 1 :=
  ⟨⟨[.go (some 0)], rfl⟩, rfl, by decide,
    (C15_Go_admits_when_alive aliveWithOne (some 1) ⟨[.go (some 0)], rfl⟩ rfl
      (by decide)).2.1,
    (C15_Go_admits_when_alive aliveWithOne (some 1) ⟨[.go (some 0)], rfl⟩ rfl
      (by decide)).2.2.1,
    (C15_Go_admits_when_alive aliveWithOne (some 1) ⟨[.go (some 0)], rfl⟩ rfl
      (by decide)).2.2.2.1⟩

/-- C16: the zero-value Tomb is a valid Alive handle.  `Alive()` is true,
`IsDead()` is false and `numAlive` is 0; the first `Dying()` or `Dead()` makes
the two channels and returns a non-nil channel that is not closed; and every
public method runs on it without a panic and does its work: `Go` makes the
channels, counts the task and starts its goroutine, which can then return and
be counted off; `Kill` makes the Tomb Dead; `Wait` returns `WaitTimeoutError`
once its timer fires. -/
theorem C16_zero_value_usable (fn : Func) (k : Nat) (f p : Bool) :
    Alive zeroValue = true ∧ IsDead zeroValue = false ∧ zeroValue.t.numAlive = 0 ∧
    Dying zeroValue = (initialised, some 0) ∧ Dead zeroValue = (initialised, some 1) ∧
    (Dying zeroValue).2 ≠ none ∧ (Dead zeroValue).2 ≠ none ∧
    isClosed (Dying zeroValue).1 (Dying zeroValue).2 = false ∧
    isClosed (Dead zeroValue).1 (Dead zeroValue).2 = false ∧
    Go fn zeroValue =
      ({ heap := { next := 2, closed := [] }
         t := { numAlive := 1, dyingChan := some 0, dying := false, deadChan := some 1 }
         goroutines := [{ fn := fn, status := .running }] }, none) ∧
    goroutineEnds 0 .returns (Go (some k) zeroValue).1 =
      .ok { heap := { next := 2, closed := [] }
            t := { numAlive := 0, dyingChan := some 0, dying := false, deadChan := some 1 }
            goroutines := [{ fn := some k, status := .finished }] } ∧
    Kill zeroValue = .ok killedEmpty ∧
    IsDead killedEmpty = true ∧ isClosed killedEmpty killedEmpty.t.dyingChan = true ∧
    isClosed killedEmpty killedEmpty.t.deadChan = true ∧
    Wait f p zeroValue
      = (initialised, if f then .returned (some .WaitTimeoutError) else .blocked) ∧
    step (.go fn) zeroValue = .ok (Go fn zeroValue).1 ∧
    step .kill zeroValue = .ok killedEmpty ∧
    step .dying zeroValue = .ok initialised ∧ step .dead zeroValue = .ok initialised ∧
    step .alive zeroValue = .ok zeroValue ∧ step .isDead zeroValue = .ok zeroValue ∧
    step (.wait f p) zeroValue = .ok initialised := by
  refine ⟨rfl, rfl, rfl, rfl, rfl, by decide, by decide, rfl, rfl, rfl, rfl, rfl, rfl, rfl,
    rfl, ?_, rfl, rfl, rfl, rfl, rfl, rfl, ?_⟩
  · cases f <;> rfl
  · cases f <;> rfl

/-- C17 as stated fails: after `Go(f)` and `Kill`, when `f` leaves through
`runtime.Goexit` the goroutine ends with `numAlive` still 1 and the Dead channel
open, where a return of `f` gives `numAlive = 0` and a closed Dead channel; and
when `f` panics the process ends. -/
theorem C17_goexit_skips_bookkeeping :
    run [.go (some 0), .kill] zeroValue = .ok dyingWithOne ∧
    goroutineEnds 0 .goexit dyingWithOne = .ok goexitOne ∧
    goexitOne.t.numAlive = 1 ∧ isClosed goexitOne goexitOne.t.deadChan = false ∧
    goroutineEnds 0 .returns dyingWithOne = .ok deadWithOne ∧
    deadWithOne.t.numAlive = 0 ∧ isClosed deadWithOne deadWithOne.t.deadChan = true ∧
    goroutineEnds 0 .panics dyingWithOne = .error (.panic .taskPanic) :=
  ⟨rfl, rfl, rfl, rfl, rfl, rfl, rfl, rfl⟩

/-- C17 (amended): for a running goroutine started by `Go` on a reachable Tomb,
the bookkeeping is done only when the body returns: then `numAlive` goes down
by one.  When the body panics the process ends.  When the goroutine leaves
through `runtime.Goexit`, nothing of the Tomb changes (`numAlive` is not
decremented, no channel is closed), and from then on `numAlive` stays positive
and the Tomb is never Dead. -/
theorem C17_fault_skips_bookkeeping (w : World) (i : Nat) (g : Goroutine) (k : Nat)
    (h : Reachable w) (hg : w.goroutines[i]? = some g) (hr : g.status = .running)
    (hf : g.fn = some k) :
    goroutineEnds i .panics w = .error (.panic .taskPanic) ∧
    (∃ w1, goroutineEnds i .returns w = .ok w1 ∧ w1.t.numAlive = w.t.numAlive - 1) ∧
    ∃ w1, goroutineEnds i .goexit w = .ok w1 ∧ w1.t = w.t ∧ w1.heap = w.heap ∧
      ∀ (ops : List Op) (w2 : World), run ops w1 = .ok w2 →
        0 < w2.t.numAlive ∧ IsDead w2 = false ∧ isClosed w2 w2.t.deadChan = false := by
  have hi := inv_of_reachable w h
  refine ⟨by simp [goroutineEnds, hg, hr, hf], ?_, ?_⟩
  · obtain ⟨w1, hw1⟩ : ∃ w1, goroutineEnds i .returns w = .ok w1 :=
      ⟨_, goroutineEnds_returns_eq w hi i g k hg hr hf⟩
    refine ⟨w1, hw1, ?_⟩
    rcases goroutineEnds_numAlive w w1 i .returns hw1 with ⟨h1, _⟩ | ⟨_, h2⟩
    · cases h1
    · exact h2
  · have he := goroutineEnds_goexit_eq w i g k hg hr hf
    refine ⟨_, he, rfl, rfl, ?_⟩
    intro ops w2 hr2
    have hi1 := inv_goroutineEnds w _ i .goexit hi he
    have hi2 := inv_run ops _ w2 hi1 hr2
    have hlt : i < w.goroutines.length := by
      rcases Nat.lt_or_ge i w.goroutines.length with h1 | h1
      · exact h1
      · rw [List.getElem?_eq_none h1] at hg; cases hg
    obtain ⟨g2, hg2, he2⟩ := run_exited ops _ w2 i hr2
      ⟨{ g with status := .exited }, by simp [hlt], rfl⟩
    have hpos := pending_pos w2.goroutines i g2 hg2 (by rw [he2]; decide)
    have hc := hi2.count
    have hn : w2.t.numAlive ≠ 0 := by omega
    exact ⟨by omega, by simp [IsDead, hn], by rw [inv_deadChan_closed w2 hi2]; simp [hn]⟩

theorem C17_fault_skips_bookkeeping_witness :
    Reachable dyingWithOne ∧
    dyingWithOne.goroutines[0]? = some { fn := some 0, status := .running } ∧
    goroutineEnds 0 .panics dyingWithOne = .error (.panic .taskPanic) ∧
    (∃ w1, goroutineEnds 0 .returns dyingWithOne = .ok w1 ∧
      w1.t.numAlive = dyingWithOne.t.numAlive - 1) ∧
    ∃ w1, goroutineEnds 0 .goexit dyingWithOne = .ok w1 ∧ w1.t = dyingWithOne.t ∧
      w1.heap = dyingWithOne.heap ∧
      ∀ (ops : List Op) (w2 : World), run ops w1 = .ok w2 →
        0 < w2.t.numAlive ∧ IsDead w2 = false ∧ isClosed w2 w2.t.deadChan = false :=
  ⟨⟨[.go (some 0), .kill], rfl⟩, rfl,
    C17_fault_skips_bookkeeping dyingWithOne 0 { fn := some 0, status := .running } 0
      ⟨[.go (some 0), .kill], rfl⟩ rfl rfl rfl⟩

/-- C18 as stated fails: `Go(nil)` on the zero-value Tomb returns nil and
raises `numAlive` from 0 to 1. -/
theorem C18_Go_nil_is_admitted :
    Alive zeroValue = true ∧ Go none zeroValue = (nilStarted, none) ∧
    zeroValue.t.numAlive = 0 ∧ nilStarted.t.numAlive = 1 :=
  ⟨rfl, rfl, rfl, rfl⟩

/-- C18 (amended): `Go` has no guard for a nil task.  On a reachable Tomb that
is not dying (with `numAlive` below the largest `int`, so that line 36 does not
wrap) `Go(nil)` returns nil and changes the state like for any task: the
channels are made if they were not, `numAlive` goes up by one and a goroutine
is started.  That goroutine panics when it calls the nil function, which ends
the process, so it never completes. -/
theorem C18_Go_nil_not_guarded (w : World) (e : Ending) (h : Reachable w)
    (hd : w.t.dying = false) (hb : w.t.numAlive < maxInt) :
    Go none w =
      ({ heap := (ensureInitialized w).heap
         t := { numAlive := w.t.numAlive + 1
                dyingChan := (ensureInitialized w).t.dyingChan
                dying := false
                deadChan := (ensureInitialized w).t.deadChan }
         goroutines := w.goroutines ++ [{ fn := none, status := .running }] }, none) ∧
    (Go none w).2 = none ∧ (Go none w).1.t.numAlive = w.t.numAlive + 1 ∧
    (Go none w).1.t.numAlive ≤ maxInt ∧ 0 < (Go none w).1.t.numAlive ∧
    (Go none w).1.goroutines = w.goroutines ++ [{ fn := none, status := .running }] ∧
    goroutineEnds w.goroutines.length e (Go none w).1 = .error (.panic .nilFuncCall) := by
  obtain ⟨e1, e2, e3⟩ := ensureInitialized_t w
  have hc := (inv_of_reachable w h).count
  have hgs : (Go none w).1.goroutines
      = w.goroutines ++ [{ fn := none, status := .running }] := by simp [Go, hd, e3]
  have hnum : (Go none w).1.t.numAlive = w.t.numAlive + 1 := by simp [Go, hd, e2]
  have e1d : (ensureInitialized w).t.dying = false := by rw [e1, hd]
  refine ⟨?_, by simp [Go, hd], hnum, by rw [hnum]; omega, by rw [hnum]; omega, hgs, ?_⟩
  · simp only [Go, hd, Bool.false_eq_true, if_false, e2, e3, e1d]
  · simp [goroutineEnds, hgs]

theorem C18_Go_nil_not_guarded_witness :
    Reachable aliveWithOne ∧ aliveWithOne.t.dying = false ∧
    aliveWithOne.t.numAlive < maxInt ∧
    (Go none aliveWithOne).2 = none ∧
    (Go none aliveWithOne).1.t.numAlive = aliveWithOne.t.numAlive + 1 ∧
    goroutineEnds aliveWithOne.goroutines.length .returns (Go none aliveWithOne).1
      = .error (.panic .nilFuncCall) :=
  ⟨⟨[.go (some 0)], rfl⟩, rfl, by decide,
    (C18_Go_nil_not_guarded aliveWithOne .returns ⟨[.go (some 0)], rfl⟩ rfl
      (by decide)).2.1,
    (C18_Go_nil_not_guarded aliveWithOne .returns ⟨[.go (some 0)], rfl⟩ rfl
      (by decide)).2.2.1,
    (C18_Go_nil_not_guarded aliveWithOne .returns ⟨[.go (some 0)], rfl⟩ rfl
      (by decide)).2.2.2.2.2.2⟩

/-- C19: channel identity is stable.  In every reachable state the two channels
are both nil or both made.  Once a `Dying()` or `Dead()` call has returned them,
no later event replaces them: after any run the Tomb still holds the same two
channels, later `Dying()` and `Dead()` calls return them without changing the
state, and they are the channels that get closed: the one `Dying()` returned is
closed exactly when `dying` is set, the one `Dead()` returned exactly when the
Tomb is Dead. -/
theorem C19_channel_identity_stable (w w1 : World) (ops : List Op) (h : Reachable w)
    (hr : run ops (Dying w).1 = .ok w1) :
    (w.t.dyingChan = none ↔ w.t.deadChan = none) ∧
    (Dying w).1 = (Dead w).1 ∧ (Dying w).2 ≠ none ∧ (Dead w).2 ≠ none ∧
    (Dying w).2 ≠ (Dead w).2 ∧
    w1.t.dyingChan = (Dying w).2 ∧ w1.t.deadChan = (Dead w).2 ∧
    Dying w1 = (w1, (Dying w).2) ∧ Dead w1 = (w1, (Dead w).2) ∧
    isClosed w1 (Dying w).2 = w1.t.dying ∧
    isClosed w1 (Dead w).2 = IsDead w1 := by
  have hi := inv_of_reachable w h
  obtain ⟨_, s2, s3, _⟩ := ensureInitialized_shape w hi
  have hmade : (ensureInitialized w).t.dyingChan ≠ none := by rw [s2]; simp
  have hr0 : run ops (ensureInitialized w) = .ok w1 := hr
  obtain ⟨c1, c2⟩ := run_chans ops _ w1 hr0 hmade
  have hi1 := inv_run ops _ w1 (inv_ensureInitialized w hi) hr0
  have hmade1 : w1.t.dyingChan ≠ none := by rw [c1]; exact hmade
  have hini1 := ensureInitialized_of_made w1 hmade1
  have hiff : w.t.dyingChan = none ↔ w.t.deadChan = none := by
    rcases hi.shape with rfl | ⟨_, h2, h3, _⟩
    · exact ⟨fun _ => rfl, fun _ => rfl⟩
    · rw [h2, h3]; simp
  refine ⟨hiff, rfl, hmade, by simp only [Dead]; rw [s3]; simp,
    by simp only [Dying, Dead]; rw [s2, s3]; simp, c1, c2, ?_, ?_, ?_, ?_⟩
  · simp only [Dying, hini1, c1]
  · simp only [Dying, Dead, hini1, c2]
  · have := inv_dyingChan_closed w1 hi1
    rw [c1] at this
    exact this
  · have := inv_deadChan_closed w1 hi1
    rw [c2] at this
    exact this

theorem C19_channel_identity_stable_witness :
    Reachable zeroValue ∧
    run [.go (some 0), .kill, .dying, .ends 0 .returns] (Dying zeroValue).1 = .ok deadWithOne ∧
    deadWithOne.t.dyingChan = (Dying zeroValue).2 ∧
    deadWithOne.t.deadChan = (Dead zeroValue).2 ∧
    isClosed deadWithOne (Dead zeroValue).2 = IsDead deadWithOne :=
  ⟨⟨[], rfl⟩, rfl,
    (C19_channel_identity_stable zeroValue deadWithOne
      [.go (some 0), .kill, .dying, .ends 0 .returns] ⟨[], rfl⟩ rfl).2.2.2.2.2.1,
    (C19_channel_identity_stable zeroValue deadWithOne
      [.go (some 0), .kill, .dying, .ends 0 .returns] ⟨[], rfl⟩ rfl).2.2.2.2.2.2.1,
    (C19_channel_identity_stable zeroValue deadWithOne
      [.go (some 0), .kill, .dying, .ends 0 .returns] ⟨[], rfl⟩ rfl).2.2.2.2.2.2.2.2.2.2⟩

end tomb
